import Mathlib

/-
Verification of the dependency-graph / ordering model of the ECS OpenTelemetry
collector topology (garysassano/cdk-aws-ecs-otel-collector).

The embedding translates the three stack variants of the repository into a
parameterised topology builder:
  * `src/src/stacks/my-stack.ts`   — pull-through cache, no debug instance;
  * `src/unnamed/part_000` (first document) — pull-through cache with an EC2
    debug instance and two stack outputs;
  * `src/unnamed/part_001`         — public registry image with an
    instrumented Lambda function.
Every construct instantiation becomes a `ResourceNode`; every reference of one
construct's attribute inside another construct's properties is recorded as an
`Expr.attr` reference, from which the implicit dependency edges are derived,
mirroring the reference-creates-dependency behaviour of the construct library.
`service.node.addDependency(dhCacheRegistryPolicy)` becomes the single explicit
dependency.  Security-group `allowFrom`/`allowTo` calls become
`ReachabilityRule`s, and `CfnOutput`s become `StackOutput`s.

The generic `DependencyGraph` with `topologicalOrder` is modelled from the
specification (the ordering engine lives in the provisioning library, not in
this repository's sources).
-/

namespace Collector

/-- Registry source of the collector image: the Docker Hub pull-through cache
variants (`my-stack.ts`, `part_000`) or the public registry variant
(`part_001`). -/
inductive RegistrySource where
  | publicRegistry
  | pullThroughCache
deriving DecidableEq

/-- Topology configuration record: registry source, whether the EC2 debug
instance of `part_000` is present, and whether the instrumented Lambda
function of `part_001` is present. -/
structure Config where
  registrySource : RegistrySource
  includeDebug : Bool
  includeFunction : Bool
deriving DecidableEq

/-- Value expressions appearing in resource properties.  `attr` is a reference
to another node's synthesis output (e.g. `dhCacheRuleSecret.secretArn`), `env`
a process environment value, `pseudo` a deployment pseudo parameter
(`this.region`, `this.account`), `cat` string interpolation. -/
inductive Expr where
  | lit (s : String)
  | attr (nodeId : String) (attrName : String)
  | env (name : String)
  | pseudo (name : String)
  | cat (a b : Expr)
deriving DecidableEq

/-- Node ids referenced by an expression: these are exactly the references
that create implicit dependency edges. -/
def exprRefs : Expr → List String
  | .lit _ => []
  | .attr n _ => [n]
  | .env _ => []
  | .pseudo _ => []
  | .cat a b => exprRefs a ++ exprRefs b

/-- Resolution environment used at synthesis time: values of generated node
attributes, of environment variables and of pseudo parameters. -/
structure Resolver where
  attr : String → String → String
  envv : String → String
  pseudo : String → String

/-- Resolve an expression to a concrete string under a resolution
environment. -/
def resolveExpr (σ : Resolver) : Expr → String
  | .lit s => s
  | .attr n a => σ.attr n a
  | .env n => σ.envv n
  | .pseudo n => σ.pseudo n
  | .cat a b => resolveExpr σ a ++ resolveExpr σ b

/-- Kinds of provisionable units appearing in the three stack variants. -/
inductive NodeKind where
  | network
  | secret
  | registryCacheRule
  | registryPolicy
  | imageRepository
  | objectStore
  | objectDeployment
  | computeTask
  | computeService
  | loadBalancer
  | listener
  | targetGroup
  | function
  | role
  | cluster
  | securityGroup
  | computeInstance
deriving DecidableEq

/-- A typed description of one provisionable unit, with its construct id, its
properties (whose `attr` references induce the implicit edges) and its
explicitly declared dependencies (`node.addDependency`). -/
structure ResourceNode where
  id : String
  kind : NodeKind
  props : List (String × Expr)
  explicitDependsOn : List String
deriving DecidableEq

/-- Network protocol of a reachability rule (all rules in the sources are
TCP). -/
inductive Proto where
  | tcp
deriving DecidableEq

/-- A derived permission statement allowing traffic from one node to another
on a specific port (a security-group `allowFrom`/`allowTo` call). -/
structure ReachabilityRule where
  sourceNodeId : String
  targetNodeId : String
  port : Nat
  protocol : Proto
deriving DecidableEq

/-- A synthesis output of the stack (`CfnOutput`): a name and a value derived
from node outputs. -/
structure StackOutput where
  name : String
  value : Expr
deriving DecidableEq

/-- One container port mapping of the collector container. -/
structure PortMapping where
  containerPort : Nat
  hostPort : Nat
  protocol : Proto
  portName : String
deriving DecidableEq

/-- The collector container of the task definition: image, startup command
and port mappings. -/
structure ContainerSpec where
  containerName : String
  image : Expr
  command : Expr
  portMappings : List PortMapping
deriving DecidableEq

/-- The load-balancer listener (`alb.addListener`). -/
structure ListenerSpec where
  port : Nat
deriving DecidableEq

/-- The target group created by `listener.addTargets`, including its health
check. -/
structure TargetGroupSpec where
  port : Nat
  healthCheckPath : String
  healthCheckPort : Nat
  healthyHttpCodes : String
deriving DecidableEq

/-- The fully assembled topology: nodes, reachability rules, stack outputs and
the typed container / listener / target-group descriptions used by the port
claims.  Edges are derived from the nodes (see `Topology.graph`). -/
structure Topology where
  nodes : List ResourceNode
  reachabilityRules : List ReachabilityRule
  stackOutputs : List StackOutput
  container : ContainerSpec
  listener : ListenerSpec
  targetGroup : TargetGroupSpec
deriving DecidableEq

/-- Implicit edges: one edge `(n.id, r)` for every reference to node `r`
inside `n`'s properties — `r` must be ready before `n` is synthesized. -/
def implicitEdgesOf (nodes : List ResourceNode) : List (String × String) :=
  nodes.flatMap (fun n => ((n.props.map (·.2)).flatMap exprRefs).map (fun r => (n.id, r)))

/-- Explicit edges: one edge per declared `addDependency`. -/
def explicitEdgesOf (nodes : List ResourceNode) : List (String × String) :=
  nodes.flatMap (fun n => n.explicitDependsOn.map (fun r => (n.id, r)))

def Topology.implicitEdges (t : Topology) : List (String × String) :=
  implicitEdgesOf t.nodes

def Topology.explicitEdges (t : Topology) : List (String × String) :=
  explicitEdgesOf t.nodes

/-- Look up a property expression of a node of the topology. -/
def propOf (t : Topology) (nodeId propName : String) : Option Expr :=
  match t.nodes.find? (fun n => n.id == nodeId) with
  | none => none
  | some n => (n.props.find? (fun p => p.1 == propName)).map (·.2)

/-- The Secrets Manager name scope required for ECR pull-through cache
credentials (`ECR_PULL_THROUGH_CACHE_PREFIX` in the source). -/
def ecrPullThroughCacheScope : String := "ecr-pullthroughcache/"

/-- The cache rule's `ecrRepositoryPrefix` value. -/
def dhRepositoryPrefixValue : String := "dockerhub"

/-- The `secretName` of `DhCacheRuleSecret`. -/
def dhSecretNameValue : String := ecrPullThroughCacheScope ++ dhRepositoryPrefixValue

/-- Node `DhCacheRuleSecret`: the Docker Hub credentials secret. -/
def dhCacheRuleSecretNode : ResourceNode :=
  ⟨"DhCacheRuleSecret", .secret,
    [("secretName", .lit dhSecretNameValue),
     ("secretStringValue", .cat (.env "DOCKERHUB_USERNAME") (.env "DOCKERHUB_ACCESS_TOKEN"))],
    []⟩

/-- Node `EcsTaskExecutionRole`: the role pulling the collector image.  In the
public-registry variant it additionally carries the managed execution policy
and is granted read access to the Honeycomb API key secret
(`honeycombApiKeySecret.grantRead`). -/
def ecsTaskExecutionRoleNode (cfg : Config) : ResourceNode :=
  ⟨"EcsTaskExecutionRole", .role,
    ("assumedBy", .lit "ecs-tasks.amazonaws.com") ::
      (if cfg.registrySource = .publicRegistry then
        [("managedPolicy", .lit "service-role/AmazonECSTaskExecutionRolePolicy"),
         ("secretRead", .attr "HoneycombApiKeySecret" "secretArn")]
      else []),
    []⟩

/-- Node `DhCacheRule`: the Docker Hub pull-through cache rule.  Its
`credentialArn` references the secret's generated ARN. -/
def dhCacheRuleNode : ResourceNode :=
  ⟨"DhCacheRule", .registryCacheRule,
    [("ecrRepositoryPrefix", .lit dhRepositoryPrefixValue),
     ("upstreamRegistry", .lit "docker-hub"),
     ("upstreamRegistryUrl", .lit "registry-1.docker.io"),
     ("credentialArn", .attr "DhCacheRuleSecret" "secretArn")],
    []⟩

/-- The `Resource` ARN pattern of the registry policy statement:
`arn:aws:ecr:${this.region}:${this.account}:repository/${dhCacheRule.ecrRepositoryPrefix}/*`. -/
def registryPolicyResourceExpr : Expr :=
  .cat (.lit "arn:aws:ecr:")
    (.cat (.pseudo "AWS::Region")
      (.cat (.lit ":")
        (.cat (.pseudo "AWS::AccountId")
          (.cat (.lit ":repository/")
            (.cat (.attr "DhCacheRule" "ecrRepositoryPrefix") (.lit "/*"))))))

/-- Node `DhCacheRegistryPolicy`: its statement embeds the execution role's ARN and
the cache rule's repository prefix. -/
def dhCacheRegistryPolicyNode : ResourceNode :=
  ⟨"DhCacheRegistryPolicy", .registryPolicy,
    [("principal", .attr "EcsTaskExecutionRole" "roleArn"),
     ("resource", registryPolicyResourceExpr)],
    []⟩

/-- The `repositoryName` of `EcrOtelcontribRepo`:
`${dhCacheRule.ecrRepositoryPrefix}/otel/opentelemetry-collector-contrib`. -/
def ecrRepoNameExpr : Expr :=
  .cat (.attr "DhCacheRule" "ecrRepositoryPrefix") (.lit "/otel/opentelemetry-collector-contrib")

/-- Node `EcrOtelcontribRepo`: the repository the cache mirrors the image into. -/
def ecrOtelcontribRepoNode : ResourceNode :=
  ⟨"EcrOtelcontribRepo", .imageRepository, [("repositoryName", ecrRepoNameExpr)], []⟩

/-- Node `HoneycombApiKeySecret` of the public-registry variant. -/
def honeycombApiKeySecretNode : ResourceNode :=
  ⟨"HoneycombApiKeySecret", .secret,
    [("secretName", .lit "honeycomb-api-key"),
     ("secretStringValue", .env "HONEYCOMB_API_KEY")],
    []⟩

/-- Node `MyVpc`. -/
def vpcNode : ResourceNode := ⟨"MyVpc", .network, [("maxAzs", .lit "2")], []⟩

/-- Node `OtelCollectorCluster`. -/
def clusterNode : ResourceNode :=
  ⟨"OtelCollectorCluster", .cluster, [("vpc", .attr "MyVpc" "vpcId")], []⟩

/-- Node `ConfmapBucket`: the bucket holding the collector configuration. -/
def confmapBucketNode : ResourceNode :=
  ⟨"ConfmapBucket", .objectStore, [("autoDeleteObjects", .lit "true")], []⟩

/-- Node `DeployConfmap`: the bucket deployment of the `otel` asset directory. -/
def deployConfmapNode : ResourceNode :=
  ⟨"DeployConfmap", .objectDeployment,
    [("sources", .lit "./otel"), ("destinationBucket", .attr "ConfmapBucket" "bucketRef")],
    []⟩

/-- Node `EcsTaskRole`: inline policy granting `s3:GetObject` on the bucket's
objects. -/
def ecsTaskRoleNode : ResourceNode :=
  ⟨"EcsTaskRole", .role,
    [("assumedBy", .lit "ecs-tasks.amazonaws.com"),
     ("s3AccessResources", .attr "ConfmapBucket" "objectsArn")],
    []⟩

/-- The collector container's startup command:
`--config s3://${confmapBucket.bucketName}.s3.${this.region}.amazonaws.com/collector-confmap.yml`. -/
def containerCommandExpr : Expr :=
  .cat (.lit "s3://")
    (.cat (.attr "ConfmapBucket" "bucketName")
      (.cat (.lit ".s3.")
        (.cat (.pseudo "AWS::Region") (.lit ".amazonaws.com/collector-confmap.yml"))))

/-- The collector image: the cache-backed ECR repository, or the public
registry image in the `part_001` variant. -/
def containerImageExpr (cfg : Config) : Expr :=
  match cfg.registrySource with
  | .pullThroughCache => .attr "EcrOtelcontribRepo" "repositoryUri"
  | .publicRegistry => .lit "public.ecr.aws/aws-observability/aws-otel-collector:latest"

/-- The two container port mappings: OTLP data port 4318 and health-check
port 13133. -/
def collectorPortMappings : List PortMapping :=
  [⟨4318, 4318, .tcp, "otlp"⟩, ⟨13133, 13133, .tcp, "healthcheck"⟩]

/-- The collector container specification. -/
def collectorContainer (cfg : Config) : ContainerSpec :=
  ⟨"otel-collector", containerImageExpr cfg, containerCommandExpr, collectorPortMappings⟩

/-- Node `EcsTaskDefinition`: references both roles, the image and the bucket (via
the startup command); in the public-registry variant the Honeycomb API key is
wired from the secret. -/
def ecsTaskDefinitionNode (cfg : Config) : ResourceNode :=
  ⟨"EcsTaskDefinition", .computeTask,
    [("executionRole", .attr "EcsTaskExecutionRole" "roleArn"),
     ("taskRole", .attr "EcsTaskRole" "roleArn"),
     ("image", containerImageExpr cfg),
     ("command", containerCommandExpr)] ++
      (match cfg.registrySource with
       | .publicRegistry => [("secretHoneycomb", .attr "HoneycombApiKeySecret" "secretArn")]
       | .pullThroughCache => [("envHoneycomb", .env "HONEYCOMB_API_KEY")]),
    []⟩

/-- Node `OtelCollectorALB`. -/
def albNode : ResourceNode :=
  ⟨"OtelCollectorALB", .loadBalancer,
    [("vpc", .attr "MyVpc" "vpcId"), ("internetFacing", .lit "true")], []⟩

/-- Node `OtlpListener` on port 4318. -/
def listenerNode : ResourceNode :=
  ⟨"OtlpListener", .listener, [("loadBalancer", .attr "OtelCollectorALB" "albRef")], []⟩

/-- Node `OtelCollectorService`: references the cluster and task definition; when
the pull-through cache is used it carries the explicit
`service.node.addDependency(dhCacheRegistryPolicy)` dependency. -/
def otelCollectorServiceNode (cfg : Config) : ResourceNode :=
  ⟨"OtelCollectorService", .computeService,
    [("cluster", .attr "OtelCollectorCluster" "clusterRef"),
     ("taskDefinition", .attr "EcsTaskDefinition" "taskDefArn")],
    if cfg.registrySource = .pullThroughCache then ["DhCacheRegistryPolicy"] else []⟩

/-- Node `OtlpTarget`: registration of the service's port 4318 with the
listener. -/
def otlpTargetNode : ResourceNode :=
  ⟨"OtlpTarget", .targetGroup,
    [("listener", .attr "OtlpListener" "listenerRef"),
     ("target", .attr "OtelCollectorService" "serviceRef")],
    []⟩

/-- Node `DebugInstanceSg`. -/
def debugInstanceSgNode : ResourceNode :=
  ⟨"DebugInstanceSg", .securityGroup, [("vpc", .attr "MyVpc" "vpcId")], []⟩

/-- Node `DebugInstanceRole`. -/
def debugInstanceRoleNode : ResourceNode :=
  ⟨"DebugInstanceRole", .role,
    [("assumedBy", .lit "ec2.amazonaws.com"),
     ("managedPolicy", .lit "AmazonSSMManagedInstanceCore")],
    []⟩

/-- Node `DebugInstance`. -/
def debugInstanceNode : ResourceNode :=
  ⟨"DebugInstance", .computeInstance,
    [("vpc", .attr "MyVpc" "vpcId"),
     ("securityGroup", .attr "DebugInstanceSg" "sgRef"),
     ("role", .attr "DebugInstanceRole" "roleArn")],
    []⟩

/-- Node `AdotHelloLambda` of the `part_001` variant: its OTLP exporter endpoint
interpolates the load balancer's DNS name. -/
def adotHelloLambdaNode : ResourceNode :=
  ⟨"AdotHelloLambda", .function,
    [("otlpEndpoint",
       .cat (.lit "http://")
         (.cat (.attr "OtelCollectorALB" "loadBalancerDnsName") (.lit ":4318/v1/traces")))],
    []⟩

/-- The service URL stack output value: `http://${alb.loadBalancerDnsName}:4318`. -/
def serviceUrlExpr : Expr :=
  .cat (.lit "http://") (.cat (.attr "OtelCollectorALB" "loadBalancerDnsName") (.lit ":4318"))

/-- The registry-specific nodes preceding the common core. -/
def registryNodes (cfg : Config) : List ResourceNode :=
  match cfg.registrySource with
  | .pullThroughCache =>
      [dhCacheRuleSecretNode, ecsTaskExecutionRoleNode cfg, dhCacheRuleNode,
       dhCacheRegistryPolicyNode, ecrOtelcontribRepoNode]
  | .publicRegistry =>
      [honeycombApiKeySecretNode, ecsTaskExecutionRoleNode cfg]

/-- The common ECS / ALB core shared by every variant. -/
def coreNodes (cfg : Config) : List ResourceNode :=
  [vpcNode, clusterNode, confmapBucketNode, deployConfmapNode, ecsTaskRoleNode,
   ecsTaskDefinitionNode cfg, albNode, listenerNode, otelCollectorServiceNode cfg,
   otlpTargetNode]

/-- The debug-instance nodes of the `part_000` variant. -/
def debugNodes : List ResourceNode :=
  [debugInstanceSgNode, debugInstanceRoleNode, debugInstanceNode]

/-- The reachability rules: the two `service.connections.allowFrom(alb, ...)`
calls on ports 4318 and 13133, plus `debugInstanceSg.connections.allowTo(alb,
4318)` when the debug instance is present. -/
def reachabilityRulesOf (cfg : Config) : List ReachabilityRule :=
  [⟨"OtelCollectorALB", "OtelCollectorService", 4318, .tcp⟩,
   ⟨"OtelCollectorALB", "OtelCollectorService", 13133, .tcp⟩] ++
    (if cfg.includeDebug then [⟨"DebugInstanceSg", "OtelCollectorALB", 4318, .tcp⟩] else [])

/-- The stack outputs: the `part_000` variant declares the service URL and the
debug instance id; the other variants declare none. -/
def stackOutputsOf (cfg : Config) : List StackOutput :=
  if cfg.includeDebug then
    [⟨"OtelCollectorServiceUrl", serviceUrlExpr⟩,
     ⟨"DebugInstanceId", .attr "DebugInstance" "instanceId"⟩]
  else []

/-- The topology builder: assembles the concrete node / rule / output sets of
the configured variant. -/
def buildTopology (cfg : Config) : Topology :=
  ⟨registryNodes cfg ++ coreNodes cfg ++
     (if cfg.includeDebug then debugNodes else []) ++
     (if cfg.includeFunction then [adotHelloLambdaNode] else []),
   reachabilityRulesOf cfg,
   stackOutputsOf cfg,
   collectorContainer cfg,
   ⟨4318⟩,
   ⟨4318, "/", 13133, "200"⟩⟩

/-- Modelled from the spec: the generic dependency graph (`DependencyGraph` of
section 4.1) is realised by the provisioning library and is not part of this
repository's sources.  Nodes are kept in insertion order; an edge `(from, to)`
means `to` must be ready before `from` is synthesized. -/
structure DependencyGraph where
  nodes : List String
  edges : List (String × String)
deriving DecidableEq

/-- Well-formedness of a graph assembled through `addNode` / `addEdge`:
distinct node ids, and every edge endpoint is a declared node. -/
def DependencyGraph.WF (g : DependencyGraph) : Prop :=
  g.nodes.Nodup ∧ ∀ e ∈ g.edges, e.1 ∈ g.nodes ∧ e.2 ∈ g.nodes

instance (g : DependencyGraph) : Decidable g.WF := by
  unfold DependencyGraph.WF
  exact inferInstance

/-- The dependency graph of a built topology: node ids in construction order,
implicit (reference-derived) edges followed by explicit declared edges. -/
def Topology.graph (t : Topology) : DependencyGraph :=
  ⟨t.nodes.map (·.id), t.implicitEdges ++ t.explicitEdges⟩

/-- The dependencies of `n`: all targets of edges leaving `n`. -/
def deps (g : DependencyGraph) (n : String) : List String :=
  (g.edges.filter (fun e => e.1 == n)).map (·.2)

/-- Readiness: `n` is ready once all of its dependencies have been emitted. -/
def isReady (g : DependencyGraph) (done : List String) (n : String) : Bool :=
  (deps g n).all (fun d => done.contains d)

/-- Modelled from the spec: the tie-break is "stable by insertion order", so
the next node emitted is the first not-yet-emitted node, in insertion order,
whose dependencies are all emitted. -/
def pickNext (g : DependencyGraph) (done rem : List String) : Option String :=
  rem.find? (isReady g done)

/-- The first not-yet-emitted dependency of `n` (used to walk into a cycle
when the traversal is stuck). -/
def nextDep (g : DependencyGraph) (done : List String) (n : String) : Option String :=
  (deps g n).find? (fun d => !done.contains d)

/-- Drop elements until the first occurrence of `d` (the suffix starting at
`d`). -/
def dropUntil (d : String) : List String → List String
  | [] => []
  | x :: xs => if x == d then x :: xs else dropUntil d xs

/-- Walk along not-yet-emitted dependencies, recording the path; when the next
node is already on the path, return the cycle it closes. -/
def cycleWalk (g : DependencyGraph) (done : List String) :
    Nat → List String → String → List String
  | 0, _, _ => []
  | fuel + 1, path, n =>
    match nextDep g done n with
    | none => []
    | some d =>
      if (path ++ [n]).contains d then dropUntil d (path ++ [n])
      else cycleWalk g done fuel (path ++ [n]) d

/-- Extract one offending cycle from a stuck traversal state. -/
def findCycle (g : DependencyGraph) (done rem : List String) : List String :=
  match rem with
  | [] => []
  | r :: _ => cycleWalk g done (rem.length + 1) [] r

/-- Modelled from the spec: `CycleError` identifies one offending cycle. -/
structure CycleError where
  cycle : List String
deriving DecidableEq

/-- Fuel-driven Kahn traversal with stable insertion-order tie-break: emit the
first ready remaining node; if none is ready while nodes remain, fail with one
offending cycle. -/
def topoAux (g : DependencyGraph) : Nat → List String → List String →
    Except (List String) (List String)
  | _, done, [] => .ok done
  | 0, _, _ :: _ => .error []
  | fuel + 1, done, r :: rs =>
    match pickNext g done (r :: rs) with
    | some n => topoAux g fuel (done ++ [n]) ((r :: rs).erase n)
    | none => .error (findCycle g done (r :: rs))

/-- Modelled from the spec: `topologicalOrder()` returns a sequence of node
ids such that for every edge `(from, to)`, `to` precedes `from`, or fails with
a `CycleError` identifying one offending cycle. -/
def topologicalOrder (g : DependencyGraph) : Except CycleError (List String) :=
  (topoAux g g.nodes.length [] g.nodes).mapError CycleError.mk

/-- A nonempty list forming a directed cycle: consecutive elements are edges
and the last element has an edge back to the first. -/
def IsCycle (g : DependencyGraph) (c : List String) : Prop :=
  c ≠ [] ∧ List.Chain' (fun a b => (a, b) ∈ g.edges) c ∧
    ∀ a b, c.head? = some a → c.getLast? = some b → (b, a) ∈ g.edges

/-- The graph contains some directed cycle. -/
def HasCycle (g : DependencyGraph) : Prop :=
  ∃ c, IsCycle g c

/-- Bounded reachability along edges (`a` transitively depends on `b`). -/
def reachableB (g : DependencyGraph) : Nat → String → String → Bool
  | 0, _, _ => false
  | fuel + 1, a, b => (deps g a).any (fun d => d == b || reachableB g fuel d b)

/-- Two nodes have no ordering constraint relative to each other: neither
transitively depends on the other. -/
def noConstraintB (g : DependencyGraph) (a b : String) : Bool :=
  !(reachableB g g.nodes.length a b || reachableB g g.nodes.length b a)

/-- Modelled from the spec: `ConfigurationError` reports every missing
required configuration name at once. -/
structure ConfigurationError where
  missing : List String
deriving DecidableEq

/-- Modelled from the spec: the helper `validateEnv` (in
`src/utils/validate-env.ts`, not present under `src/`) checks all required
named values against the environment and "fails fast listing every missing
name at once (not one at a time)". -/
def validateEnv (names : List String) (ev : String → Option String) :
    Except ConfigurationError (String → Option String) :=
  let missing := names.filter (fun n => (ev n).isNone)
  if missing.isEmpty then .ok ev else .error ⟨missing⟩

/-- The required environment variable names of each variant (`validateEnv`
call sites at the top of `my-stack.ts` / `part_000` / `part_001`). -/
def requiredEnvNames (cfg : Config) : List String :=
  match cfg.registrySource with
  | .pullThroughCache => ["DOCKERHUB_USERNAME", "DOCKERHUB_ACCESS_TOKEN", "HONEYCOMB_API_KEY"]
  | .publicRegistry => ["HONEYCOMB_API_KEY"]

/-- Stack construction: the environment is validated first (the `validateEnv`
call precedes the stack class at module scope), and only on success is the
topology built. -/
def buildStack (ev : String → Option String) (cfg : Config) :
    Except ConfigurationError Topology :=
  match validateEnv (requiredEnvNames cfg) ev with
  | .error e => .error e
  | .ok _ => .ok (buildTopology cfg)

/-- The resource nodes created by a construction attempt: none when
construction aborted with a `ConfigurationError`. -/
def builtNodes (r : Except ConfigurationError Topology) : List ResourceNode :=
  match r with
  | .error _ => []
  | .ok t => t.nodes

/-- An ECR repository ARN in a given region and account. -/
def ecrRepoArn (region account name : String) : String :=
  "arn:aws:ecr:" ++ region ++ ":" ++ account ++ ":repository/" ++ name

/-- Matching of an IAM resource pattern whose only wildcard is a trailing
`*`: literal characters must agree and a final `*` matches any suffix. -/
def matchStarSuffix : List Char → List Char → Bool
  | [], s => s.isEmpty
  | c :: cs, s =>
    if c == '*' && cs.isEmpty then true
    else
      match s with
      | [] => false
      | d :: ds => c == d && matchStarSuffix cs ds

/-- IAM ARN pattern matching for trailing-wildcard patterns. -/
def iamArnMatch (pat s : String) : Bool :=
  matchStarSuffix pat.data s.data

/-- Boolean string-prefix test. -/
def strStartsWith (p s : String) : Bool :=
  p.data.isPrefixOf s.data

/-- The `my-stack.ts` configuration: pull-through cache, no debug instance,
no Lambda function. -/
def cacheConfig : Config := ⟨.pullThroughCache, false, false⟩

/-- An insertion order `[A, B, C]` with the single edge `A → C` (A depends on
C): the pair `(A, B)` has no ordering constraint, yet no edge-respecting
order can keep every unconstrained pair in insertion order. -/
def unconstrainedPairGraph : DependencyGraph :=
  ⟨["A", "B", "C"], [("A", "C")]⟩

/-- A small well-formed graph used to instantiate the ordering theorem. -/
def sampleWfGraph : DependencyGraph :=
  ⟨["P", "Q", "R"], [("Q", "P"), ("R", "Q")]⟩

/-- Traversal invariant: every dependency of an emitted node is itself
emitted. -/
def Closed (g : DependencyGraph) (done : List String) : Prop :=
  ∀ a ∈ done, ∀ d ∈ deps g a, d ∈ done

/-- Traversal invariant: no emitted node depends on a node emitted after
it. -/
def NoBack (g : DependencyGraph) (done : List String) : Prop :=
  done.Pairwise (fun a b => (a, b) ∉ g.edges)

/-- Traversal invariant: no emitted node depends on itself. -/
def NoSelf (g : DependencyGraph) (done : List String) : Prop :=
  ∀ a ∈ done, (a, a) ∉ g.edges

/-- A concrete resolution environment used to instantiate the naming
invariants: the cache rule's prefix attribute resolves to its configured
literal value, every other attribute / environment / pseudo value to a
placeholder. -/
def witnessResolver : Resolver :=
  ⟨fun n a => if n == "DhCacheRule" && a == "ecrRepositoryPrefix" then "dockerhub"
    else "attr-value",
   fun _ => "env-value",
   fun _ => "id-value"⟩

end Collector

namespace Collector

/-- C1: whenever the pull-through cache is used, the built graph contains the
explicit dependency edge from the compute service to the registry policy
(`service.node.addDependency(dhCacheRegistryPolicy)`), an edge beyond the
reference-inferred ones, so the service is ordered after the registry
policy. -/
theorem service_registry_policy_explicit_edge (cfg : Config)
    (h : cfg.registrySource = .pullThroughCache) :
    ("OtelCollectorService", "DhCacheRegistryPolicy") ∈ (buildTopology cfg).explicitEdges ∧
    ("OtelCollectorService", "DhCacheRegistryPolicy") ∈ (buildTopology cfg).graph.edges ∧
    ("OtelCollectorService", "DhCacheRegistryPolicy") ∉ (buildTopology cfg).implicitEdges := by
  obtain ⟨rs, dbg, fn⟩ := cfg
  simp only at h
  subst h
  cases dbg <;> cases fn <;> decide

theorem service_registry_policy_explicit_edge_witness :
    (cacheConfig.registrySource = .pullThroughCache) ∧
    (("OtelCollectorService", "DhCacheRegistryPolicy") ∈ (buildTopology cacheConfig).explicitEdges ∧
     ("OtelCollectorService", "DhCacheRegistryPolicy") ∈ (buildTopology cacheConfig).graph.edges ∧
     ("OtelCollectorService", "DhCacheRegistryPolicy") ∉ (buildTopology cacheConfig).implicitEdges) :=
  ⟨rfl, service_registry_policy_explicit_edge cacheConfig rfl⟩

/-- C2 counterexample: in the built cache topology the deployment depends on
the bucket, but the claimed edge from the compute service to the object
deployment does not exist, so the claimed mandatory chain
ObjectStore → ObjectDeployment → ComputeService is broken at its second
link. -/
theorem service_deployment_edge_missing :
    ¬ (("DeployConfmap", "ConfmapBucket") ∈ (buildTopology cacheConfig).graph.edges ∧
       ("OtelCollectorService", "DeployConfmap") ∈ (buildTopology cacheConfig).graph.edges) := by
  decide

/-- C2 (amended): every built topology contains the edges
ObjectDeployment → ObjectStore, ComputeTask → ObjectStore (the startup command
references the bucket) and ComputeService → ComputeTask, so the service is
ordered after the object store only transitively through the task definition,
and no edge from the service to the object deployment exists. -/
theorem config_artifact_edges (cfg : Config) :
    ("DeployConfmap", "ConfmapBucket") ∈ (buildTopology cfg).graph.edges ∧
    ("EcsTaskDefinition", "ConfmapBucket") ∈ (buildTopology cfg).graph.edges ∧
    ("OtelCollectorService", "EcsTaskDefinition") ∈ (buildTopology cfg).graph.edges ∧
    ("OtelCollectorService", "DeployConfmap") ∉ (buildTopology cfg).graph.edges := by
  obtain ⟨rs, dbg, fn⟩ := cfg
  cases rs <;> cases dbg <;> cases fn <;> decide

/-- C3: in the cache-enabled topology without a debug node, the resolved rule
set contains exactly the two rules from the load balancer to the service —
data port 4318 and health-check port 13133 — and no rule grants any other
node access to the service. -/
theorem cache_no_debug_rules (cfg : Config)
    (hc : cfg.registrySource = .pullThroughCache) (hd : cfg.includeDebug = false) :
    ((buildTopology cfg).reachabilityRules.filter
        (fun r => r.sourceNodeId == "OtelCollectorALB" &&
          r.targetNodeId == "OtelCollectorService")) =
      [⟨"OtelCollectorALB", "OtelCollectorService", 4318, .tcp⟩,
       ⟨"OtelCollectorALB", "OtelCollectorService", 13133, .tcp⟩] ∧
    ∀ r ∈ (buildTopology cfg).reachabilityRules,
      r.targetNodeId = "OtelCollectorService" → r.sourceNodeId = "OtelCollectorALB" := by
  obtain ⟨rs, dbg, fn⟩ := cfg
  simp only at hc hd
  subst hc
  subst hd
  cases fn <;> decide

theorem cache_no_debug_rules_witness :
    (cacheConfig.registrySource = .pullThroughCache ∧ cacheConfig.includeDebug = false) ∧
    (((buildTopology cacheConfig).reachabilityRules.filter
        (fun r => r.sourceNodeId == "OtelCollectorALB" &&
          r.targetNodeId == "OtelCollectorService")) =
      [⟨"OtelCollectorALB", "OtelCollectorService", 4318, .tcp⟩,
       ⟨"OtelCollectorALB", "OtelCollectorService", 13133, .tcp⟩] ∧
    ∀ r ∈ (buildTopology cacheConfig).reachabilityRules,
      r.targetNodeId = "OtelCollectorService" → r.sourceNodeId = "OtelCollectorALB") :=
  ⟨⟨rfl, rfl⟩, cache_no_debug_rules cacheConfig rfl rfl⟩

/-- C5: with the debug node present the rule set gains exactly one additional
rule — the debug security group may reach the load balancer on the data port
4318 — and neither the debug security group nor the debug instance may reach
the compute service directly. -/
theorem debug_rules (cfg : Config) (h : cfg.includeDebug = true) :
    (buildTopology cfg).reachabilityRules =
      (buildTopology ⟨cfg.registrySource, false, cfg.includeFunction⟩).reachabilityRules ++
        [⟨"DebugInstanceSg", "OtelCollectorALB", 4318, .tcp⟩] ∧
    (∀ r ∈ (buildTopology cfg).reachabilityRules,
        (r.sourceNodeId = "DebugInstanceSg" ∨ r.sourceNodeId = "DebugInstance") →
        r.targetNodeId = "OtelCollectorALB" ∧ r.port = 4318) ∧
    (∀ r ∈ (buildTopology cfg).reachabilityRules,
        r.targetNodeId = "OtelCollectorService" →
        r.sourceNodeId ≠ "DebugInstanceSg" ∧ r.sourceNodeId ≠ "DebugInstance") := by
  obtain ⟨rs, dbg, fn⟩ := cfg
  simp only at h
  subst h
  cases rs <;> cases fn <;> decide

theorem debug_rules_witness :
    ((⟨.pullThroughCache, true, false⟩ : Config).includeDebug = true) ∧
    ((buildTopology ⟨.pullThroughCache, true, false⟩).reachabilityRules =
      (buildTopology ⟨.pullThroughCache, false, false⟩).reachabilityRules ++
        [⟨"DebugInstanceSg", "OtelCollectorALB", 4318, .tcp⟩] ∧
    (∀ r ∈ (buildTopology ⟨.pullThroughCache, true, false⟩).reachabilityRules,
        (r.sourceNodeId = "DebugInstanceSg" ∨ r.sourceNodeId = "DebugInstance") →
        r.targetNodeId = "OtelCollectorALB" ∧ r.port = 4318) ∧
    (∀ r ∈ (buildTopology ⟨.pullThroughCache, true, false⟩).reachabilityRules,
        r.targetNodeId = "OtelCollectorService" →
        r.sourceNodeId ≠ "DebugInstanceSg" ∧ r.sourceNodeId ≠ "DebugInstance")) :=
  ⟨rfl, debug_rules ⟨.pullThroughCache, true, false⟩ rfl⟩

/-- C6 counterexample: the cache rule depends on the secret and the policy on
the cache rule, but no edge from the image repository to the registry policy
exists (the repository references only the cache rule's prefix), so the
claimed chain Secret → CacheRule → RegistryPolicy → ImageRepository is missing
its final edge. -/
theorem repo_policy_edge_missing :
    ¬ (("DhCacheRule", "DhCacheRuleSecret") ∈ (buildTopology cacheConfig).graph.edges ∧
       ("DhCacheRegistryPolicy", "DhCacheRule") ∈ (buildTopology cacheConfig).graph.edges ∧
       ("EcrOtelcontribRepo", "DhCacheRegistryPolicy") ∈ (buildTopology cacheConfig).graph.edges) := by
  decide

/-- C6 (amended): with the pull-through cache the graph contains the edges
CacheRule → Secret (via `credentialArn`), RegistryPolicy → CacheRule and
RegistryPolicy → Role (the policy statement embeds the rule's prefix and the
role's identity) and ImageRepository → CacheRule (the repository name embeds
the rule's prefix); there is no direct edge between the image repository and
the registry policy — that ordering is carried by the explicit
ComputeService → RegistryPolicy dependency instead. -/
theorem cache_chain_edges (cfg : Config) (h : cfg.registrySource = .pullThroughCache) :
    ("DhCacheRule", "DhCacheRuleSecret") ∈ (buildTopology cfg).graph.edges ∧
    ("DhCacheRegistryPolicy", "DhCacheRule") ∈ (buildTopology cfg).graph.edges ∧
    ("DhCacheRegistryPolicy", "EcsTaskExecutionRole") ∈ (buildTopology cfg).graph.edges ∧
    ("EcrOtelcontribRepo", "DhCacheRule") ∈ (buildTopology cfg).graph.edges ∧
    ("EcrOtelcontribRepo", "DhCacheRegistryPolicy") ∉ (buildTopology cfg).graph.edges := by
  obtain ⟨rs, dbg, fn⟩ := cfg
  simp only at h
  subst h
  cases dbg <;> cases fn <;> decide

theorem cache_chain_edges_witness :
    (cacheConfig.registrySource = .pullThroughCache) ∧
    (("DhCacheRule", "DhCacheRuleSecret") ∈ (buildTopology cacheConfig).graph.edges ∧
     ("DhCacheRegistryPolicy", "DhCacheRule") ∈ (buildTopology cacheConfig).graph.edges ∧
     ("DhCacheRegistryPolicy", "EcsTaskExecutionRole") ∈ (buildTopology cacheConfig).graph.edges ∧
     ("EcrOtelcontribRepo", "DhCacheRule") ∈ (buildTopology cacheConfig).graph.edges ∧
     ("EcrOtelcontribRepo", "DhCacheRegistryPolicy") ∉ (buildTopology cacheConfig).graph.edges) :=
  ⟨rfl, cache_chain_edges cacheConfig rfl⟩

/-- C8 counterexample: the cache variant without a debug node declares no
stack outputs at all, in particular no service endpoint URL output. -/
theorem service_url_output_missing :
    ¬ ∃ o ∈ (buildTopology cacheConfig).stackOutputs, o.name = "OtelCollectorServiceUrl" := by
  decide

/-- C8 (amended): only the debug variant declares synthesis outputs — exactly
the service endpoint URL, assembled from the load balancer node's DNS-name
output and the data port (`http://${alb.loadBalancerDnsName}:4318`), and the
debug node's instance id output; variants without the debug node declare
none. -/
theorem outputs_by_variant (cfg : Config) :
    ((∃ o ∈ (buildTopology cfg).stackOutputs, o.name = "OtelCollectorServiceUrl") ↔
      cfg.includeDebug = true) ∧
    ((∃ o ∈ (buildTopology cfg).stackOutputs, o.name = "DebugInstanceId") ↔
      cfg.includeDebug = true) ∧
    (cfg.includeDebug = true →
      (buildTopology cfg).stackOutputs =
        [⟨"OtelCollectorServiceUrl", serviceUrlExpr⟩,
         ⟨"DebugInstanceId", .attr "DebugInstance" "instanceId"⟩]) := by
  obtain ⟨rs, dbg, fn⟩ := cfg
  cases rs <;> cases dbg <;> cases fn <;> decide

/-- C10: across every variant the data port 4318 and health-check port 13133
are used consistently: container and host ports agree in each mapping, the
listener and target group use the container's data port, the target health
check uses the container's health-check port, and the security-group rules
targeting the service grant exactly those two ports. -/
theorem port_consistency (cfg : Config) :
    (∀ pm ∈ (buildTopology cfg).container.portMappings, pm.containerPort = pm.hostPort) ∧
    ((buildTopology cfg).container.portMappings.map (·.containerPort) = [4318, 13133]) ∧
    (buildTopology cfg).listener.port = 4318 ∧
    (buildTopology cfg).targetGroup.port = 4318 ∧
    (buildTopology cfg).targetGroup.healthCheckPort = 13133 ∧
    (((buildTopology cfg).reachabilityRules.filter
        (fun r => r.targetNodeId == "OtelCollectorService")).map (·.port) = [4318, 13133]) ∧
    (∀ r ∈ (buildTopology cfg).reachabilityRules,
      r.targetNodeId = "OtelCollectorService" → r.port = 4318 ∨ r.port = 13133) := by
  obtain ⟨rs, dbg, fn⟩ := cfg
  cases rs <;> cases dbg <;> cases fn <;> decide

/-- C4: when any required named configuration value is missing, construction
aborts with a `ConfigurationError` listing every missing name at once, and no
resource node is created. -/
theorem missing_env_aborts (cfg : Config) (ev : String → Option String)
    (h : ∃ n ∈ requiredEnvNames cfg, ev n = none) :
    ∃ e : ConfigurationError,
      buildStack ev cfg = .error e ∧
      e.missing = (requiredEnvNames cfg).filter (fun n => (ev n).isNone) ∧
      (∀ n, n ∈ e.missing ↔ n ∈ requiredEnvNames cfg ∧ ev n = none) ∧
      builtNodes (buildStack ev cfg) = [] := by
  obtain ⟨m, hm, hnone⟩ := h
  have hmem : m ∈ (requiredEnvNames cfg).filter (fun n => (ev n).isNone) :=
    List.mem_filter.mpr ⟨hm, by simp [hnone]⟩
  have hne : ¬ ((requiredEnvNames cfg).filter (fun n => (ev n).isNone)).isEmpty = true := by
    intro hemp
    rw [List.isEmpty_iff] at hemp
    rw [hemp] at hmem
    exact absurd hmem (List.not_mem_nil m)
  refine ⟨⟨(requiredEnvNames cfg).filter (fun n => (ev n).isNone)⟩, ?_, rfl, ?_, ?_⟩
  · simp [buildStack, validateEnv, hne]
  · intro n
    simp [List.mem_filter, Option.isNone_iff_eq_none]
  · simp [builtNodes, buildStack, validateEnv, hne]

theorem mem_deps {g : DependencyGraph} {n d : String} :
    d ∈ deps g n ↔ (n, d) ∈ g.edges := by
  constructor
  · intro h
    simp only [deps, List.mem_map, List.mem_filter, beq_iff_eq] at h
    obtain ⟨e, ⟨he, h1⟩, h2⟩ := h
    have hend : e = (n, d) := by
      obtain ⟨e1, e2⟩ := e
      simp only at h1 h2
      rw [h1, h2]
    rwa [hend] at he
  · intro h
    simp only [deps, List.mem_map, List.mem_filter, beq_iff_eq]
    exact ⟨(n, d), ⟨h, rfl⟩, rfl⟩

theorem isReady_iff {g : DependencyGraph} {done : List String} {n : String} :
    isReady g done n = true ↔ ∀ d ∈ deps g n, d ∈ done := by
  simp [isReady, List.all_eq_true, List.elem_iff]

theorem topoAux_ok (g : DependencyGraph) (hnd : g.nodes.Nodup) :
    ∀ fuel done rem order,
      (done ++ rem).Perm g.nodes →
      Closed g done → NoBack g done → NoSelf g done →
      topoAux g fuel done rem = .ok order →
      order.Perm g.nodes ∧ Closed g order ∧ NoBack g order ∧ NoSelf g order := by
  intro fuel
  induction fuel with
  | zero =>
    intro done rem order hperm hc hb hs hok
    cases rem with
    | nil =>
      simp only [topoAux] at hok
      cases hok
      exact ⟨by simpa using hperm, hc, hb, hs⟩
    | cons r rs => simp [topoAux] at hok
  | succ fuel ih =>
    intro done rem order hperm hc hb hs hok
    cases rem with
    | nil =>
      simp only [topoAux] at hok
      cases hok
      exact ⟨by simpa using hperm, hc, hb, hs⟩
    | cons r rs =>
      cases hpick : pickNext g done (r :: rs) with
      | none =>
        simp only [topoAux, hpick] at hok
        exact Except.noConfusion hok
      | some n =>
        simp only [topoAux, hpick] at hok
        have hnrem : n ∈ r :: rs := List.mem_of_find?_eq_some hpick
        have hready : ∀ d ∈ deps g n, d ∈ done := isReady_iff.mp (List.find?_some hpick)
        have hnodup : (done ++ r :: rs).Nodup := hperm.nodup_iff.mpr hnd
        have hdisj : done.Disjoint (r :: rs) := (List.nodup_append.mp hnodup).2.2
        have hnotin : n ∉ done := fun hin => hdisj hin hnrem
        have hperm2 : ((done ++ [n]) ++ (r :: rs).erase n).Perm g.nodes := by
          have h1 : (done ++ [n]) ++ (r :: rs).erase n = done ++ (n :: (r :: rs).erase n) := by
            simp
          rw [h1]
          exact ((List.Perm.append_left done (List.perm_cons_erase hnrem)).symm).trans hperm
        have hc2 : Closed g (done ++ [n]) := by
          intro a ha d hd
          rcases List.mem_append.mp ha with h | h
          · exact List.mem_append.mpr (Or.inl (hc a h d hd))
          · rw [List.mem_singleton] at h
            subst h
            exact List.mem_append.mpr (Or.inl (hready d hd))
        have hb2 : NoBack g (done ++ [n]) := by
          apply List.pairwise_append.mpr
          refine ⟨hb, List.pairwise_singleton _ _, ?_⟩
          intro a ha b hbn
          rw [List.mem_singleton] at hbn
          subst hbn
          intro hedge
          exact hnotin (hc a ha b (mem_deps.mpr hedge))
        have hs2 : NoSelf g (done ++ [n]) := by
          intro a ha
          rcases List.mem_append.mp ha with h | h
          · exact hs a h
          · rw [List.mem_singleton] at h
            subst h
            intro hedge
            exact hnotin (hready a (mem_deps.mpr hedge))
        exact ih (done ++ [n]) ((r :: rs).erase n) order hperm2 hc2 hb2 hs2 hok

theorem order_indexOf_lt (g : DependencyGraph) (order : List String)
    (hwf : g.WF) (hperm : order.Perm g.nodes)
    (hb : NoBack g order) (hs : NoSelf g order) :
    ∀ e ∈ g.edges, order.indexOf e.2 < order.indexOf e.1 := by
  rintro ⟨f, t⟩ he
  have hf : f ∈ order := hperm.mem_iff.mpr ((hwf.2 _ he).1)
  have ht : t ∈ order := hperm.mem_iff.mpr ((hwf.2 _ he).2)
  have hft : f ≠ t := by
    rintro rfl
    exact hs f hf he
  have hi : order.indexOf t < order.length := List.indexOf_lt_length.mpr ht
  have hj : order.indexOf f < order.length := List.indexOf_lt_length.mpr hf
  rcases Nat.lt_trichotomy (order.indexOf t) (order.indexOf f) with h | h | h
  · exact h
  · exfalso
    apply hft
    rw [← List.indexOf_get hj, ← List.indexOf_get hi]
    exact congrArg order.get (Fin.ext h.symm)
  · exfalso
    have hpw : order.Pairwise (fun a b => (a, b) ∉ g.edges) := hb
    have := (List.pairwise_iff_get.mp hpw) ⟨order.indexOf f, hj⟩ ⟨order.indexOf t, hi⟩ h
    rw [List.indexOf_get hj, List.indexOf_get hi] at this
    exact this he

theorem topologicalOrder_ok_spec (g : DependencyGraph) (hwf : g.WF) (order : List String)
    (hok : topologicalOrder g = .ok order) :
    order.Perm g.nodes ∧ ∀ e ∈ g.edges, order.indexOf e.2 < order.indexOf e.1 := by
  have haux : topoAux g g.nodes.length [] g.nodes = .ok order := by
    cases h : topoAux g g.nodes.length [] g.nodes with
    | ok l =>
      simp only [topologicalOrder, h, Except.mapError] at hok
      cases hok
      rfl
    | error l => simp [topologicalOrder, h, Except.mapError] at hok
  have hcl : Closed g [] := by
    intro a ha
    exact absurd ha (List.not_mem_nil a)
  have hns : NoSelf g [] := by
    intro a ha
    exact absurd ha (List.not_mem_nil a)
  obtain ⟨hperm, _, hb, hs⟩ :=
    topoAux_ok g hwf.1 g.nodes.length [] g.nodes order (by simp) hcl List.Pairwise.nil hns haux
  exact ⟨hperm, order_indexOf_lt g order hwf hperm hb hs⟩

theorem chain_getLast_le (f : String → Nat) :
    ∀ (c : List String) (a b : String), List.Chain' (fun x y => f y < f x) c →
      c.head? = some a → c.getLast? = some b → f b ≤ f a := by
  intro c
  induction c with
  | nil =>
    intro a b _ hh _
    cases hh
  | cons x xs ih =>
    intro a b hchain hh hl
    injection hh with hh
    subst hh
    cases xs with
    | nil =>
      simp only [List.getLast?_singleton] at hl
      injection hl with hl
      subst hl
      exact le_refl _
    | cons y ys =>
      rw [List.chain'_cons] at hchain
      rw [List.getLast?_cons_cons] at hl
      exact le_trans (ih y b hchain.2 rfl hl) (le_of_lt hchain.1)

theorem hasCycle_not_ok (g : DependencyGraph) (hwf : g.WF) (hcyc : HasCycle g) :
    ∀ order, topologicalOrder g ≠ .ok order := by
  intro order hok
  obtain ⟨hperm, hidx⟩ := topologicalOrder_ok_spec g hwf order hok
  obtain ⟨c, hcne, hchain, hclose⟩ := hcyc
  cases c with
  | nil => exact hcne rfl
  | cons x xs =>
    have hlast := List.getLast?_eq_getLast (x :: xs) (List.cons_ne_nil x xs)
    set b := (x :: xs).getLast (List.cons_ne_nil x xs) with hbdef
    have hchain2 : List.Chain' (fun p q => order.indexOf q < order.indexOf p) (x :: xs) :=
      hchain.imp (fun {p q} hpq => hidx (p, q) hpq)
    have hle : order.indexOf b ≤ order.indexOf x :=
      chain_getLast_le (order.indexOf ·) (x :: xs) x b hchain2 rfl hlast
    have hedge : (b, x) ∈ g.edges := hclose x b rfl hlast
    have hlt : order.indexOf x < order.indexOf b := hidx (b, x) hedge
    omega

theorem dropUntil_spec (d : String) :
    ∀ (l : List String), d ∈ l →
      ∃ pre post, l = pre ++ (d :: post) ∧ dropUntil d l = d :: post := by
  intro l
  induction l with
  | nil =>
    intro h
    cases h
  | cons x xs ih =>
    intro hmem
    by_cases hx : x = d
    · subst hx
      exact ⟨[], xs, rfl, by simp [dropUntil]⟩
    · have hmem2 : d ∈ xs := by
        cases hmem with
        | head => exact absurd rfl hx
        | tail _ h => exact h
      obtain ⟨pre, post, heq, hdrop⟩ := ih hmem2
      refine ⟨x :: pre, post, by rw [List.cons_append, ← heq], ?_⟩
      have hbx : (x == d) = false := by
        simp [hx]
      simp [dropUntil, hbx, hdrop]

theorem cycleWalk_spec (g : DependencyGraph) (done rem : List String)
    (hnext : ∀ m ∈ rem, (nextDep g done m).isSome)
    (hclosed : ∀ m ∈ rem, ∀ d, nextDep g done m = some d → d ∈ rem) :
    ∀ fuel path n,
      n ∈ rem → (∀ x ∈ path, x ∈ rem) →
      (path ++ [n]).Nodup →
      List.Chain' (fun a b => (a, b) ∈ g.edges) (path ++ [n]) →
      rem.length + 1 ≤ fuel + (path ++ [n]).length →
      IsCycle g (cycleWalk g done fuel path n) := by
  intro fuel
  induction fuel with
  | zero =>
    intro path n hn hpath hnd hchain hlen
    exfalso
    have hsub : (path ++ [n]) ⊆ rem := by
      intro x hx
      rcases List.mem_append.mp hx with h | h
      · exact hpath x h
      · rw [List.mem_singleton] at h
        subst h
        exact hn
    have := (hnd.subperm hsub).length_le
    omega
  | succ fuel ih =>
    intro path n hn hpath hnd hchain hlen
    cases hstep : nextDep g done n with
    | none =>
      exfalso
      have := hnext n hn
      rw [hstep] at this
      cases this
    | some d =>
      have hdrem : d ∈ rem := hclosed n hn d hstep
      have hedge : (n, d) ∈ g.edges := mem_deps.mp (List.mem_of_find?_eq_some hstep)
      by_cases hdp : d ∈ path ++ [n]
      · have hcont : (path ++ [n]).contains d = true := List.elem_iff.mpr hdp
        simp only [cycleWalk, hstep, hcont, if_true]
        obtain ⟨pre, post, heq, hdrop⟩ := dropUntil_spec d (path ++ [n]) hdp
        rw [hdrop]
        refine ⟨List.cons_ne_nil d post, ?_, ?_⟩
        · have : List.Chain' (fun a b => (a, b) ∈ g.edges) (pre ++ (d :: post)) := heq ▸ hchain
          exact this.right_of_append
        · intro a b ha hb
          injection ha with ha
          subst ha
          have hl1 : (pre ++ (d :: post)).getLast? = (d :: post).getLast? :=
            List.getLast?_append_of_ne_nil pre (List.cons_ne_nil d post)
          have hl2 : (path ++ [n]).getLast? = some n := List.getLast?_concat path
          rw [heq] at hl2
          rw [hl1] at hl2
          rw [hb] at hl2
          injection hl2 with hl2
          rw [hl2]
          exact hedge
      · have hcont : (path ++ [n]).contains d = false := by
          rw [← Bool.not_eq_true]
          intro hc
          exact hdp (List.elem_iff.mp hc)
        simp only [cycleWalk, hstep, hcont, Bool.false_eq_true, if_false]
        have hsub : ∀ x ∈ path ++ [n], x ∈ rem := by
          intro x hx
          rcases List.mem_append.mp hx with h | h
          · exact hpath x h
          · rw [List.mem_singleton] at h
            subst h
            exact hn
        have hnd2 : ((path ++ [n]) ++ [d]).Nodup := by
          rw [List.nodup_append]
          refine ⟨hnd, List.nodup_singleton d, ?_⟩
          intro x hx hxd
          rw [List.mem_singleton] at hxd
          subst hxd
          exact hdp hx
        have hchain2 : List.Chain' (fun a b => (a, b) ∈ g.edges) ((path ++ [n]) ++ [d]) := by
          apply hchain.append (List.chain'_singleton d)
          intro x hx y hy
          rw [List.getLast?_concat] at hx
          simp only [List.head?_cons, Option.mem_def] at hx hy
          injection hx with hx
          injection hy with hy
          subst hx
          subst hy
          exact hedge
        have hlen2 : rem.length + 1 ≤ fuel + ((path ++ [n]) ++ [d]).length := by
          simp only [List.length_append, List.length_singleton] at hlen ⊢
          omega
        exact ih (path ++ [n]) d hdrem hsub hnd2 hchain2 hlen2

theorem findCycle_spec (g : DependencyGraph) (hwf : g.WF) (done rem : List String)
    (hperm : (done ++ rem).Perm g.nodes)
    (hstuck : ∀ m ∈ rem, ¬ isReady g done m = true)
    (hne : rem ≠ []) :
    IsCycle g (findCycle g done rem) := by
  have hnext : ∀ m ∈ rem, (nextDep g done m).isSome := by
    intro m hm
    have h1 := hstuck m hm
    rw [isReady_iff] at h1
    push_neg at h1
    obtain ⟨d, hd, hdn⟩ := h1
    apply List.find?_isSome.mpr
    refine ⟨d, hd, ?_⟩
    have hc : done.contains d = false := by
      rw [← Bool.not_eq_true]
      intro hc
      exact hdn (List.elem_iff.mp hc)
    rw [hc]
    rfl
  have hclosed : ∀ m ∈ rem, ∀ d, nextDep g done m = some d → d ∈ rem := by
    intro m hm d hfind
    have hd : d ∈ deps g m := List.mem_of_find?_eq_some hfind
    have hnotdone : d ∉ done := by
      have hp := List.find?_some hfind
      intro hmem
      have hcont : done.contains d = true := List.elem_iff.mpr hmem
      rw [hcont] at hp
      simp at hp
    have hdnodes : d ∈ g.nodes := (hwf.2 (m, d) (mem_deps.mp hd)).2
    have hmemapp : d ∈ done ++ rem := hperm.mem_iff.mpr hdnodes
    rcases List.mem_append.mp hmemapp with h | h
    · exact absurd h hnotdone
    · exact h
  cases rem with
  | nil => exact absurd rfl hne
  | cons r rs =>
    apply cycleWalk_spec g done (r :: rs) hnext hclosed ((r :: rs).length + 1) [] r
    · exact List.mem_cons_self r rs
    · intro x hx
      cases hx
    · exact List.nodup_singleton r
    · exact List.chain'_singleton r
    · simp

theorem topoAux_error (g : DependencyGraph) (hwf : g.WF) :
    ∀ fuel done rem c,
      (done ++ rem).Perm g.nodes →
      rem.length ≤ fuel →
      topoAux g fuel done rem = .error c →
      IsCycle g c := by
  intro fuel
  induction fuel with
  | zero =>
    intro done rem c hperm hlen herr
    cases rem with
    | nil => simp [topoAux] at herr
    | cons r rs => simp at hlen
  | succ fuel ih =>
    intro done rem c hperm hlen herr
    cases rem with
    | nil => simp [topoAux] at herr
    | cons r rs =>
      cases hpick : pickNext g done (r :: rs) with
      | some n =>
        simp only [topoAux, hpick] at herr
        have hnrem : n ∈ r :: rs := List.mem_of_find?_eq_some hpick
        have hperm2 : ((done ++ [n]) ++ (r :: rs).erase n).Perm g.nodes := by
          have h1 : (done ++ [n]) ++ (r :: rs).erase n = done ++ (n :: (r :: rs).erase n) := by
            simp
          rw [h1]
          exact ((List.Perm.append_left done (List.perm_cons_erase hnrem)).symm).trans hperm
        have hlen2 : ((r :: rs).erase n).length ≤ fuel := by
          rw [List.length_erase_of_mem hnrem]
          simp only [List.length_cons] at hlen ⊢
          omega
        exact ih (done ++ [n]) ((r :: rs).erase n) c hperm2 hlen2 herr
      | none =>
        simp only [topoAux, hpick] at herr
        injection herr with herr
        have hstuck : ∀ m ∈ r :: rs, ¬ isReady g done m = true := by
          intro m hm hready
          have hnone := List.find?_eq_none.mp hpick m hm
          exact hnone hready
        rw [← herr]
        exact findCycle_spec g hwf done (r :: rs) hperm hstuck (List.cons_ne_nil r rs)

theorem topologicalOrder_cycle (g : DependencyGraph) (hwf : g.WF) (hcyc : HasCycle g) :
    ∃ c : CycleError, topologicalOrder g = .error c ∧ IsCycle g c.cycle := by
  cases h : topoAux g g.nodes.length [] g.nodes with
  | ok l =>
    exfalso
    exact hasCycle_not_ok g hwf hcyc l (by simp [topologicalOrder, h, Except.mapError])
  | error l =>
    refine ⟨⟨l⟩, by simp [topologicalOrder, h, Except.mapError], ?_⟩
    exact topoAux_error g hwf g.nodes.length [] g.nodes l (by simp) (le_refl _) h

theorem topoAux_no_edges (g : DependencyGraph) (he : g.edges = []) :
    ∀ (rem : List String) (fuel : Nat) (done : List String),
      rem.length ≤ fuel → topoAux g fuel done rem = .ok (done ++ rem) := by
  intro rem
  induction rem with
  | nil =>
    intro fuel done _
    cases fuel <;> simp [topoAux]
  | cons r rs ih =>
    intro fuel done hlen
    cases fuel with
    | zero => simp at hlen
    | succ fuel =>
      have hready : isReady g done r = true := by
        simp [isReady, deps, he]
      have hpick : pickNext g done (r :: rs) = some r := by
        simp [pickNext, List.find?_cons_of_pos _ hready]
      simp only [topoAux, hpick, List.erase_cons_head]
      rw [ih fuel (done ++ [r]) (by simp only [List.length_cons] at hlen; omega)]
      simp

theorem topologicalOrder_no_edges (g : DependencyGraph) (he : g.edges = []) :
    topologicalOrder g = .ok g.nodes := by
  unfold topologicalOrder
  rw [topoAux_no_edges g he g.nodes g.nodes.length [] (le_refl _)]
  simp [Except.mapError]

/-- C7 (amended): for every well-formed graph, a successful
`topologicalOrder()` covers all nodes and places, for each edge `(from, to)`,
the id `to` strictly before `from`; a graph containing a cycle fails with a
`CycleError` identifying one offending cycle; and the tie-break is stable by
insertion order in that the traversal always emits the first ready remaining
node — in particular a graph without edges is ordered exactly by insertion.
The all-pairs insertion-order reading of the original tie-break sentence is
refuted separately on a concrete graph. -/
theorem topologicalOrder_spec (g : DependencyGraph) (hwf : g.WF) :
    (∀ order, topologicalOrder g = .ok order →
        order.Perm g.nodes ∧ ∀ e ∈ g.edges, order.indexOf e.2 < order.indexOf e.1) ∧
    (HasCycle g → ∃ c : CycleError, topologicalOrder g = .error c ∧ IsCycle g c.cycle) ∧
    (g.edges = [] → topologicalOrder g = .ok g.nodes) :=
  ⟨fun order hok => topologicalOrder_ok_spec g hwf order hok,
   topologicalOrder_cycle g hwf,
   topologicalOrder_no_edges g⟩

theorem topologicalOrder_spec_witness :
    sampleWfGraph.WF ∧
    ((∀ order, topologicalOrder sampleWfGraph = .ok order →
        order.Perm sampleWfGraph.nodes ∧
        ∀ e ∈ sampleWfGraph.edges, order.indexOf e.2 < order.indexOf e.1) ∧
     (HasCycle sampleWfGraph → ∃ c : CycleError,
        topologicalOrder sampleWfGraph = .error c ∧ IsCycle sampleWfGraph c.cycle) ∧
     (sampleWfGraph.edges = [] → topologicalOrder sampleWfGraph = .ok sampleWfGraph.nodes)) :=
  ⟨by decide, topologicalOrder_spec sampleWfGraph (by decide)⟩

/-- C7 counterexample: in the graph with insertion order `[A, B, C]` and the
single edge `A → C`, the nodes `A` and `B` have no ordering constraint
relative to each other and `A` was inserted first, yet `topologicalOrder`
emits `B` before `A` — the all-pairs insertion-order property of the claim
fails (and is unsatisfiable together with the edge constraint). -/
theorem insertion_order_counterexample :
    topologicalOrder unconstrainedPairGraph = .ok ["B", "C", "A"] ∧
    noConstraintB unconstrainedPairGraph "A" "B" = true ∧
    unconstrainedPairGraph.nodes.indexOf "A" < unconstrainedPairGraph.nodes.indexOf "B" ∧
    ¬ (["B", "C", "A"].indexOf "A" < ["B", "C", "A"].indexOf "B") :=
  ⟨rfl, by decide, by decide, by decide⟩

theorem matchStarSuffix_star :
    ∀ (p s : List Char), matchStarSuffix (p ++ ['*']) s = true ↔ p <+: s := by
  intro p
  induction p with
  | nil =>
    intro s
    constructor
    · intro _
      exact List.nil_prefix
    · intro _
      simp [matchStarSuffix]
  | cons c cs ih =>
    intro s
    rw [List.cons_append]
    have hne : ((cs ++ ['*']).isEmpty) = false := by simp
    cases s with
    | nil =>
      simp [matchStarSuffix, hne]
    | cons d ds =>
      simp [matchStarSuffix, hne, ih, List.cons_prefix_cons]

theorem iamArnMatch_common (c p s : String) :
    iamArnMatch (c ++ p ++ "*") (c ++ s) = true ↔ strStartsWith p s = true := by
  unfold iamArnMatch strStartsWith
  simp only [String.data_append]
  rw [matchStarSuffix_star (c.data ++ p.data) (c.data ++ s.data)]
  rw [List.isPrefixOf_iff_prefix]
  exact List.prefix_append_right_inj c.data

/-- C9: in every pull-through-cache variant, the repository name begins with
the cache rule's prefix followed by `/`, the cache rule's `credentialArn` is
exactly the secret's generated ARN reference, the secret's name carries the
fixed `ecr-pullthroughcache/` scope, and the registry policy's resource ARN
covers exactly the repositories under the same prefix — in particular the
repository the service pulls from. -/
theorem cache_naming_invariants (cfg : Config) (σ : Resolver) (name : String)
    (hc : cfg.registrySource = .pullThroughCache)
    (hp : σ.attr "DhCacheRule" "ecrRepositoryPrefix" = dhRepositoryPrefixValue) :
    propOf (buildTopology cfg) "DhCacheRule" "ecrRepositoryPrefix" =
      some (.lit dhRepositoryPrefixValue) ∧
    propOf (buildTopology cfg) "EcrOtelcontribRepo" "repositoryName" = some ecrRepoNameExpr ∧
    propOf (buildTopology cfg) "DhCacheRule" "credentialArn" =
      some (.attr "DhCacheRuleSecret" "secretArn") ∧
    propOf (buildTopology cfg) "DhCacheRuleSecret" "secretName" = some (.lit dhSecretNameValue) ∧
    propOf (buildTopology cfg) "DhCacheRegistryPolicy" "resource" =
      some registryPolicyResourceExpr ∧
    resolveExpr σ ecrRepoNameExpr = "dockerhub/otel/opentelemetry-collector-contrib" ∧
    strStartsWith (dhRepositoryPrefixValue ++ "/") (resolveExpr σ ecrRepoNameExpr) = true ∧
    resolveExpr σ (.attr "DhCacheRuleSecret" "secretArn") =
      σ.attr "DhCacheRuleSecret" "secretArn" ∧
    strStartsWith ecrPullThroughCacheScope dhSecretNameValue = true ∧
    (iamArnMatch (resolveExpr σ registryPolicyResourceExpr)
        (ecrRepoArn (σ.pseudo "AWS::Region") (σ.pseudo "AWS::AccountId") name) = true ↔
      strStartsWith (dhRepositoryPrefixValue ++ "/") name = true) ∧
    iamArnMatch (resolveExpr σ registryPolicyResourceExpr)
        (ecrRepoArn (σ.pseudo "AWS::Region") (σ.pseudo "AWS::AccountId")
          (resolveExpr σ ecrRepoNameExpr)) = true := by
  have hprops :
      propOf (buildTopology cfg) "DhCacheRule" "ecrRepositoryPrefix" =
        some (.lit dhRepositoryPrefixValue) ∧
      propOf (buildTopology cfg) "EcrOtelcontribRepo" "repositoryName" = some ecrRepoNameExpr ∧
      propOf (buildTopology cfg) "DhCacheRule" "credentialArn" =
        some (.attr "DhCacheRuleSecret" "secretArn") ∧
      propOf (buildTopology cfg) "DhCacheRuleSecret" "secretName" =
        some (.lit dhSecretNameValue) ∧
      propOf (buildTopology cfg) "DhCacheRegistryPolicy" "resource" =
        some registryPolicyResourceExpr := by
    obtain ⟨rs, dbg, fn⟩ := cfg
    simp only at hc
    subst hc
    cases dbg <;> cases fn <;> decide
  have hrepo : resolveExpr σ ecrRepoNameExpr =
      "dockerhub/otel/opentelemetry-collector-contrib" := by
    show σ.attr "DhCacheRule" "ecrRepositoryPrefix" ++ "/otel/opentelemetry-collector-contrib" = _
    rw [hp]
    decide
  have hstart : strStartsWith (dhRepositoryPrefixValue ++ "/")
      (resolveExpr σ ecrRepoNameExpr) = true := by
    rw [hrepo]
    decide
  have hres : resolveExpr σ registryPolicyResourceExpr =
      ("arn:aws:ecr:" ++ σ.pseudo "AWS::Region" ++ ":" ++ σ.pseudo "AWS::AccountId" ++
        ":repository/") ++ "dockerhub/" ++ "*" := by
    show "arn:aws:ecr:" ++ (σ.pseudo "AWS::Region" ++ (":" ++ (σ.pseudo "AWS::AccountId" ++
      (":repository/" ++ (σ.attr "DhCacheRule" "ecrRepositoryPrefix" ++ "/*"))))) = _
    rw [hp]
    have hmerge : dhRepositoryPrefixValue ++ "/*" = ("dockerhub/" : String) ++ "*" := by decide
    rw [hmerge]
    simp [String.append_assoc]
  have hiff : ∀ nm : String,
      iamArnMatch (resolveExpr σ registryPolicyResourceExpr)
        (ecrRepoArn (σ.pseudo "AWS::Region") (σ.pseudo "AWS::AccountId") nm) = true ↔
      strStartsWith (dhRepositoryPrefixValue ++ "/") nm = true := by
    intro nm
    rw [hres]
    have hpv : dhRepositoryPrefixValue ++ "/" = ("dockerhub/" : String) := by decide
    rw [hpv]
    exact iamArnMatch_common
      ("arn:aws:ecr:" ++ σ.pseudo "AWS::Region" ++ ":" ++ σ.pseudo "AWS::AccountId" ++
        ":repository/") "dockerhub/" nm
  have hrepoin : iamArnMatch (resolveExpr σ registryPolicyResourceExpr)
      (ecrRepoArn (σ.pseudo "AWS::Region") (σ.pseudo "AWS::AccountId")
        (resolveExpr σ ecrRepoNameExpr)) = true := by
    rw [hiff (resolveExpr σ ecrRepoNameExpr), hrepo]
    decide
  exact ⟨hprops.1, hprops.2.1, hprops.2.2.1, hprops.2.2.2.1, hprops.2.2.2.2,
    hrepo, hstart, rfl, by decide, hiff name, hrepoin⟩

theorem cache_naming_invariants_witness :
    (cacheConfig.registrySource = .pullThroughCache ∧
      witnessResolver.attr "DhCacheRule" "ecrRepositoryPrefix" = dhRepositoryPrefixValue) ∧
    (propOf (buildTopology cacheConfig) "DhCacheRule" "ecrRepositoryPrefix" =
      some (.lit dhRepositoryPrefixValue) ∧
    propOf (buildTopology cacheConfig) "EcrOtelcontribRepo" "repositoryName" =
      some ecrRepoNameExpr ∧
    propOf (buildTopology cacheConfig) "DhCacheRule" "credentialArn" =
      some (.attr "DhCacheRuleSecret" "secretArn") ∧
    propOf (buildTopology cacheConfig) "DhCacheRuleSecret" "secretName" =
      some (.lit dhSecretNameValue) ∧
    propOf (buildTopology cacheConfig) "DhCacheRegistryPolicy" "resource" =
      some registryPolicyResourceExpr ∧
    resolveExpr witnessResolver ecrRepoNameExpr =
      "dockerhub/otel/opentelemetry-collector-contrib" ∧
    strStartsWith (dhRepositoryPrefixValue ++ "/")
      (resolveExpr witnessResolver ecrRepoNameExpr) = true ∧
    resolveExpr witnessResolver (.attr "DhCacheRuleSecret" "secretArn") =
      witnessResolver.attr "DhCacheRuleSecret" "secretArn" ∧
    strStartsWith ecrPullThroughCacheScope dhSecretNameValue = true ∧
    (iamArnMatch (resolveExpr witnessResolver registryPolicyResourceExpr)
        (ecrRepoArn (witnessResolver.pseudo "AWS::Region")
          (witnessResolver.pseudo "AWS::AccountId") "dockerhub/extra") = true ↔
      strStartsWith (dhRepositoryPrefixValue ++ "/") "dockerhub/extra" = true) ∧
    iamArnMatch (resolveExpr witnessResolver registryPolicyResourceExpr)
        (ecrRepoArn (witnessResolver.pseudo "AWS::Region")
          (witnessResolver.pseudo "AWS::AccountId")
          (resolveExpr witnessResolver ecrRepoNameExpr)) = true) :=
  ⟨⟨rfl, by decide⟩,
    cache_naming_invariants cacheConfig witnessResolver "dockerhub/extra" rfl (by decide)⟩

theorem missing_env_aborts_witness :
    (∃ n ∈ requiredEnvNames cacheConfig, (fun _ : String => (none : Option String)) n = none) ∧
    (∃ e : ConfigurationError,
      buildStack (fun _ => none) cacheConfig = .error e ∧
      e.missing = (requiredEnvNames cacheConfig).filter
        (fun n => ((fun _ : String => (none : Option String)) n).isNone) ∧
      (∀ n, n ∈ e.missing ↔ n ∈ requiredEnvNames cacheConfig ∧
        (fun _ : String => (none : Option String)) n = none) ∧
      builtNodes (buildStack (fun _ => none) cacheConfig) = []) :=
  ⟨⟨"DOCKERHUB_USERNAME", by decide, rfl⟩,
   missing_env_aborts cacheConfig (fun _ => none) ⟨"DOCKERHUB_USERNAME", by decide, rfl⟩⟩

end Collector
